import Mathlib

/-!
QuotesNative.GlobalShortcutsModule

A shallow embedding of
`src/quotes-native/windows/QuotesNative/NativeModules/GlobalShortcutsModule.cpp`
(and of the two data members declared in `GlobalShortcutsModule.h`), followed by
the properties of the hotkey registry that are settled on it.

Modelling choices.

* `std::map<std::string, int> m_registeredHotkeys` is a list of key/value pairs
  kept in key order, with `find`, `insert` (the effect of `m[k] = v`) and
  `erase`.  The functions do not require their input to be ordered; every list
  they produce from an ordered, duplicate-free list is again one.
* `int m_nextHotkeyId` is a 32-bit signed integer: `m_nextHotkeyId++` is
  `wrapInt32 (m_nextHotkeyId + 1)`, the two's-complement wrap-around of the
  target, so that the successor of `2147483647` is `-2147483648`.
* The operating system is the table of hot keys this module has bound
  (`id ↦ (fsModifiers, vk)`) together with the list of Win32 calls made, most
  recent first.  Whether `RegisterHotKey` succeeds is not decided by the
  module, so it is an argument (`osOk`) of `RegisterShortcut`;
  `UnregisterHotKey` always removes the binding.
* A `char` of the key string is a byte.  `std::toupper` is the "C" locale one.
  All comparisons of the source are against ASCII bounds, so the signed and
  the unsigned reading of `char` agree on them.
* `OutputDebugStringA` diagnostics and the `catch (...)` blocks (reached only
  on allocation failure) are not modelled.
-/

namespace QuotesNative

/-! ## Constants -/

def MOD_CONTROL_KEY : Nat := 0x0002
def MOD_SHIFT_KEY : Nat := 0x0004
def MOD_ALT_KEY : Nat := 0x0001
def MOD_WIN_KEY : Nat := 0x0008
def MOD_NOREPEAT : Nat := 0x4000
/-- Value of the Win32 message identifier `WM_HOTKEY`. -/
def WM_HOTKEY : Nat := 0x0312

/-- Value of a 32-bit `int` after an arithmetic result `n`: two's-complement wrap-around into
`[-2147483648, 2147483647]`. -/
def wrapInt32 (n : Int) : Int := (n + 2147483648) % 4294967296 - 2147483648

/-! ## `std::map<std::string, int>` -/

/-- Contents of a `std::map<std::string, int>`, in iteration order. -/
abbrev HotkeyMap := List (String × Int)

/-- Behaviour of `m.find(k)`: the mapped value, or `none` for `m.end()`. -/
def HotkeyMap.find : HotkeyMap → String → Option Int
  | [], _ => none
  | (k', v) :: rest, k => if k' = k then some v else HotkeyMap.find rest k

/-- Lexicographic "less than" on character sequences. -/
def lexLt : List Char → List Char → Bool
  | [], [] => false
  | [], _ :: _ => true
  | _ :: _, [] => false
  | a :: as, b :: bs => if a < b then true else if a = b then lexLt as bs else false

/-- Order `std::less<std::string>` of the map's keys: lexicographic on the characters. -/
def strLt (a b : String) : Bool := lexLt a.data b.data

/-- Behaviour of `m[k] = v`: overwrite the mapped value or add the key in order. -/
def HotkeyMap.insert : HotkeyMap → String → Int → HotkeyMap
  | [], k, v => [(k, v)]
  | (k', v') :: rest, k, v =>
    if strLt k k' then (k, v) :: (k', v') :: rest
    else if k' = k then (k, v) :: rest
    else (k', v') :: HotkeyMap.insert rest k v

/-- Behaviour of `m.erase(k)`: drop the entry of key `k`. -/
def HotkeyMap.erase : HotkeyMap → String → HotkeyMap
  | [], _ => []
  | (k', v) :: rest, k =>
    if k' = k then HotkeyMap.erase rest k else (k', v) :: HotkeyMap.erase rest k

/-! ## The operating system side -/

/-- One Win32 hot-key call made by the module (the window handle is always `nullptr`). -/
inductive OsCall where
  | RegisterHotKey (id : Int) (fsModifiers : Nat) (vk : Nat) (result : Bool)
  | UnregisterHotKey (id : Int)
  deriving DecidableEq, Repr

/-- Hot keys bound for this module: hot-key id with its `(fsModifiers, vk)`. -/
abbrev OsTable := List (Int × (Nat × Nat))

/-- Binding currently held under a hot-key id, if any. -/
def OsTable.lookup : OsTable → Int → Option (Nat × Nat)
  | [], _ => none
  | (i, d) :: rest, id => if i = id then some d else OsTable.lookup rest id

/-- Effect of `UnregisterHotKey(nullptr, id)`. -/
def OsTable.unbind : OsTable → Int → OsTable
  | [], _ => []
  | (i, d) :: rest, id =>
    if i = id then OsTable.unbind rest id else (i, d) :: OsTable.unbind rest id

/-- Effect of a successful `RegisterHotKey(nullptr, id, fsModifiers, vk)`. -/
def OsTable.bind (t : OsTable) (id : Int) (d : Nat × Nat) : OsTable :=
  (id, d) :: t.unbind id

/-! ## Module state -/

/-- Data members of `GlobalShortcutsModule` together with the operating system side. -/
structure State where
  m_registeredHotkeys : HotkeyMap
  m_nextHotkeyId : Int
  osHotkeys : OsTable
  osCalls : List OsCall
  deriving DecidableEq, Repr

/-- State of a freshly constructed module: empty map, `m_nextHotkeyId = 1`. -/
def State.initial : State :=
  { m_registeredHotkeys := [], m_nextHotkeyId := 1, osHotkeys := [], osCalls := [] }

/-- Call of `RegisterHotKey(nullptr, id, fsModifiers, vk)` whose outcome is `osOk`. -/
def State.callRegisterHotKey (s : State) (id : Int) (fsModifiers vk : Nat) (osOk : Bool) : State :=
  { s with
    osHotkeys := if osOk then s.osHotkeys.bind id (fsModifiers, vk) else s.osHotkeys
    osCalls := OsCall.RegisterHotKey id fsModifiers vk osOk :: s.osCalls }

/-- Call of `UnregisterHotKey(nullptr, id)`. -/
def State.callUnregisterHotKey (s : State) (id : Int) : State :=
  { s with
    osHotkeys := s.osHotkeys.unbind id
    osCalls := OsCall.UnregisterHotKey id :: s.osCalls }

/-! ## Key encoding (lines 22-42 of `RegisterShortcut`) -/

/-- The `// Build modifiers` block. -/
def buildModifiers (ctrl shift alt win : Bool) : Nat :=
  let modifiers := MOD_NOREPEAT
  let modifiers := if ctrl then modifiers ||| MOD_CONTROL_KEY else modifiers
  let modifiers := if shift then modifiers ||| MOD_SHIFT_KEY else modifiers
  let modifiers := if alt then modifiers ||| MOD_ALT_KEY else modifiers
  let modifiers := if win then modifiers ||| MOD_WIN_KEY else modifiers
  modifiers

/-- Function `std::toupper` in the "C" locale. -/
def toupper (c : Fin 256) : Nat :=
  if 97 ≤ c.val ∧ c.val ≤ 122 then c.val - 32 else c.val

/-- The `// Convert key to virtual key code` block; `0` stands for "unsupported". -/
def keyToVk (key : List (Fin 256)) : Nat :=
  match key with
  | [k0] =>
    let c := toupper k0
    if 65 ≤ c ∧ c ≤ 90 then c
    else if 48 ≤ c ∧ c ≤ 57 then c
    else 0
  | _ => 0

/-! ## The module's methods -/

/-- Method `GlobalShortcutsModule::UnregisterShortcut`. -/
def UnregisterShortcut (shortcutId : String) (s : State) : State :=
  match s.m_registeredHotkeys.find shortcutId with
  | some id =>
    let s := s.callUnregisterHotKey id
    { s with m_registeredHotkeys := s.m_registeredHotkeys.erase shortcutId }
  | none => s

/-- Method `GlobalShortcutsModule::RegisterShortcut`; `osOk` is what `RegisterHotKey` returns. -/
def RegisterShortcut (shortcutId : String) (key : List (Fin 256)) (ctrl shift alt win : Bool)
    (osOk : Bool) (s : State) : State :=
  let modifiers := buildModifiers ctrl shift alt win
  let vk := keyToVk key
  if vk = 0 then s
  else
    let s := if (s.m_registeredHotkeys.find shortcutId).isSome then UnregisterShortcut shortcutId s
             else s
    let hotkeyId := s.m_nextHotkeyId
    let s := { s with m_nextHotkeyId := wrapInt32 (s.m_nextHotkeyId + 1) }
    let s := { s with m_registeredHotkeys := s.m_registeredHotkeys.insert shortcutId hotkeyId }
    let s := s.callRegisterHotKey hotkeyId modifiers vk osOk
    if osOk then s
    else { s with m_registeredHotkeys := s.m_registeredHotkeys.erase shortcutId }

/-- Method `GlobalShortcutsModule::UnregisterAllShortcuts`. -/
def UnregisterAllShortcuts (s : State) : State :=
  let s := s.m_registeredHotkeys.foldl (fun acc pair => acc.callUnregisterHotKey pair.2) s
  { s with m_registeredHotkeys := [] }

/-- What one call of the window procedure does besides delegating to `DefWindowProc`. -/
structure WndProcEffect where
  /-- Events emitted to React Native. -/
  emitted : List String
  /-- Lines written with `OutputDebugStringA`. -/
  debugOutput : List String
  deriving DecidableEq, Repr

/-- Static method `GlobalShortcutsModule::HotkeyWndProc`.  It has no access to the module's
members; for `WM_HOTKEY` it writes one diagnostic line and emits nothing. -/
def HotkeyWndProc (msg : Nat) (_wParam : Int) (_lParam : Int) : WndProcEffect :=
  if msg = WM_HOTKEY then
    { emitted := [], debugOutput := ["GlobalShortcutsModule - Hotkey pressed\n"] }
  else
    { emitted := [], debugOutput := [] }

/-! ## Call sequences -/

/-- One call made by the hosting application. -/
inductive Op where
  | register (shortcutId : String) (key : List (Fin 256)) (ctrl shift alt win : Bool)
      (osOk : Bool)
  | unregister (shortcutId : String)
  | unregisterAll
  deriving DecidableEq, Repr

/-- Effect of one call. -/
def step (s : State) : Op → State
  | .register shortcutId key ctrl shift alt win osOk =>
    RegisterShortcut shortcutId key ctrl shift alt win osOk s
  | .unregister shortcutId => UnregisterShortcut shortcutId s
  | .unregisterAll => UnregisterAllShortcuts s

/-- State reached from a fresh module by a sequence of calls. -/
def run (ops : List Op) : State := ops.foldl step State.initial

/-- Descriptor `(fsModifiers, vk)` of the most recent `RegisterShortcut` call for `name` in `ops`
that had a supported key and whose `RegisterHotKey` succeeded. -/
def lastSuccessful (name : String) (ops : List Op) : Option (Nat × Nat) :=
  ops.foldl
    (fun acc op =>
      match op with
      | .register shortcutId key ctrl shift alt win osOk =>
        if shortcutId = name ∧ keyToVk key ≠ 0 ∧ osOk = true then
          some (buildModifiers ctrl shift alt win, keyToVk key)
        else acc
      | _ => acc)
    none

/-- Number of `RegisterShortcut` calls in a sequence that pass the key check, that is, the
number of hot-key ids handed out. -/
def acceptedCalls (ops : List Op) : Nat :=
  (ops.filter (fun op =>
    match op with
    | .register _ key _ _ _ _ _ => decide (keyToVk key ≠ 0)
    | _ => false)).length

/-! ## Vocabulary used to state the properties -/

/-- Byte is an ASCII letter `A`-`Z` or `a`-`z`. -/
def isLetter (c : Fin 256) : Prop := (65 ≤ c.val ∧ c.val ≤ 90) ∨ (97 ≤ c.val ∧ c.val ≤ 122)

/-- Byte is an ASCII digit `0`-`9`. -/
def isDigit (c : Fin 256) : Prop := 48 ≤ c.val ∧ c.val ≤ 57

/-- Key symbol of the supported vocabulary: exactly one character, a letter or a digit. -/
def SupportedKey (key : List (Fin 256)) : Prop := ∃ c, key = [c] ∧ (isLetter c ∨ isDigit c)

/-- Number of entries a name has in the map. -/
def HotkeyMap.registrations (m : HotkeyMap) (name : String) : Nat :=
  (m.filter (fun e => decide (e.1 = name))).length

/-- Descriptor `(fsModifiers, vk)` passed in the most recent Win32 call, when that call is a
`RegisterHotKey`. -/
def State.lastRequested (s : State) : Option (Nat × Nat) :=
  match s.osCalls with
  | OsCall.RegisterHotKey _ fsModifiers vk _ :: _ => some (fsModifiers, vk)
  | _ => none

/-- Keys of the map are strictly ascending, as in a `std::map`. -/
def HotkeyMap.Ordered (m : HotkeyMap) : Prop := m.Pairwise (fun a b => strLt a.1 b.1 = true)

/-- Agreement of the registry with the operating system table, relative to a record `g` of the
descriptor each name was last bound with and to the number `c - 1` of hot-key ids handed out so
far:
the counter is the 32-bit value of `c`; every stored hot-key id is the 32-bit value of one of
`1, ..., c - 1`; no hot-key id is stored under two names; the ids bound at the operating system
are exactly the stored ones; and the id stored for a name is bound to the descriptor recorded
for that name. -/
def Consistent (g : String → Option (Nat × Nat)) (c : Int) (s : State) : Prop :=
  1 ≤ c ∧ s.m_nextHotkeyId = wrapInt32 c ∧
  (∀ n id, s.m_registeredHotkeys.find n = some id → ∃ j, 1 ≤ j ∧ j < c ∧ id = wrapInt32 j) ∧
  (∀ n₁ n₂ id, s.m_registeredHotkeys.find n₁ = some id →
    s.m_registeredHotkeys.find n₂ = some id → n₁ = n₂) ∧
  (∀ id, (s.osHotkeys.lookup id).isSome ↔ ∃ n, s.m_registeredHotkeys.find n = some id) ∧
  (∀ n id, s.m_registeredHotkeys.find n = some id → s.osHotkeys.lookup id = g n)

/-! ## Lemmas on the key order -/

theorem lexLt_irrefl (a : List Char) : lexLt a a = false := by
  induction a with
  | nil => rfl
  | cons x xs ih => simp [lexLt, ih]

theorem lexLt_trans (a b c : List Char) (hab : lexLt a b = true) (hbc : lexLt b c = true) :
    lexLt a c = true := by
  induction a generalizing b c with
  | nil =>
    cases b with
    | nil => simp [lexLt] at hab
    | cons y ys =>
      cases c with
      | nil => simp [lexLt] at hbc
      | cons z zs => rfl
  | cons x xs ih =>
    cases b with
    | nil => simp [lexLt] at hab
    | cons y ys =>
      cases c with
      | nil => simp [lexLt] at hbc
      | cons z zs =>
        simp only [lexLt] at hab hbc ⊢
        by_cases hxy : x < y
        · by_cases hyz : y < z
          · simp [lt_trans hxy hyz]
          · by_cases eyz : y = z
            · subst eyz
              simp [hxy]
            · simp [hyz, eyz] at hbc
        · by_cases exy : x = y
          · subst exy
            by_cases hyz : x < z
            · simp [hyz]
            · by_cases eyz : x = z
              · subst eyz
                simp only [hxy, if_false, if_true] at hab hbc ⊢
                exact ih ys zs hab hbc
              · simp [hyz, eyz] at hbc
          · simp [hxy, exy] at hab

theorem lexLt_total (a b : List Char) (hab : lexLt a b = false) (hne : a ≠ b) :
    lexLt b a = true := by
  induction a generalizing b with
  | nil =>
    cases b with
    | nil => exact absurd rfl hne
    | cons y ys => simp [lexLt] at hab
  | cons x xs ih =>
    cases b with
    | nil => rfl
    | cons y ys =>
      simp only [lexLt] at hab ⊢
      by_cases hxy : x < y
      · simp [hxy] at hab
      · by_cases exy : x = y
        · subst exy
          simp only [hxy, if_false, if_true] at hab ⊢
          exact ih ys hab (fun e => hne (by rw [e]))
        · have hyx : y < x := lt_of_le_of_ne (not_lt.mp hxy) (Ne.symm exy)
          simp [hyx]

theorem strLt_trans (a b c : String) (hab : strLt a b = true) (hbc : strLt b c = true) :
    strLt a c = true :=
  lexLt_trans _ _ _ hab hbc

theorem strLt_ne (a b : String) (hab : strLt a b = true) : a ≠ b := by
  rintro rfl
  simp [strLt, lexLt_irrefl] at hab

theorem strLt_total (a b : String) (hab : ¬ strLt a b = true) (hne : a ≠ b) :
    strLt b a = true :=
  lexLt_total _ _ (by simpa using hab) (fun e => hne (String.ext e))

/-! ## Lemmas on the map -/

theorem HotkeyMap.find_insert_self (m : HotkeyMap) (k : String) (v : Int) :
    (m.insert k v).find k = some v := by
  induction m with
  | nil => simp [HotkeyMap.insert, HotkeyMap.find]
  | cons e rest ih =>
    obtain ⟨k', v'⟩ := e
    unfold HotkeyMap.insert
    by_cases h1 : strLt k k' = true
    · simp [h1, HotkeyMap.find]
    · by_cases h2 : k' = k
      · subst h2
        simp [h1, HotkeyMap.find]
      · simp [h1, h2, HotkeyMap.find, ih]

theorem HotkeyMap.find_insert_ne (m : HotkeyMap) (k j : String) (v : Int) (h : k ≠ j) :
    (m.insert k v).find j = m.find j := by
  induction m with
  | nil => simp [HotkeyMap.insert, HotkeyMap.find, h]
  | cons e rest ih =>
    obtain ⟨k', v'⟩ := e
    unfold HotkeyMap.insert
    by_cases h1 : strLt k k' = true
    · simp [h1, HotkeyMap.find, h]
    · by_cases h2 : k' = k
      · subst h2
        simp [h1, HotkeyMap.find, h]
      · simp [h1, h2, HotkeyMap.find, ih]

theorem HotkeyMap.find_erase_self (m : HotkeyMap) (k : String) :
    (m.erase k).find k = none := by
  induction m with
  | nil => simp [HotkeyMap.erase, HotkeyMap.find]
  | cons e rest ih =>
    obtain ⟨k', v'⟩ := e
    by_cases h : k' = k
    · simpa [HotkeyMap.erase, h] using ih
    · simpa [HotkeyMap.erase, h, HotkeyMap.find] using ih

theorem HotkeyMap.find_erase_ne (m : HotkeyMap) (k j : String) (h : k ≠ j) :
    (m.erase k).find j = m.find j := by
  induction m with
  | nil => simp [HotkeyMap.erase, HotkeyMap.find]
  | cons e rest ih =>
    obtain ⟨k', v'⟩ := e
    by_cases h1 : k' = k
    · subst h1
      simpa [HotkeyMap.erase, HotkeyMap.find, h] using ih
    · by_cases h2 : k' = j
      · subst h2
        simp [HotkeyMap.erase, h1, HotkeyMap.find]
      · simpa [HotkeyMap.erase, h1, HotkeyMap.find, h2] using ih

theorem HotkeyMap.erase_of_find_none (m : HotkeyMap) (k : String) (h : m.find k = none) :
    m.erase k = m := by
  induction m with
  | nil => rfl
  | cons e rest ih =>
    obtain ⟨k', v'⟩ := e
    by_cases h1 : k' = k
    · simp [HotkeyMap.find, h1] at h
    · simp only [HotkeyMap.find, h1, if_false] at h
      simp [HotkeyMap.erase, h1, ih h]

theorem HotkeyMap.erase_erase (m : HotkeyMap) (k : String) :
    (m.erase k).erase k = m.erase k :=
  HotkeyMap.erase_of_find_none _ _ (HotkeyMap.find_erase_self m k)

theorem HotkeyMap.erase_insert (m : HotkeyMap) (k : String) (v : Int) :
    (m.insert k v).erase k = m.erase k := by
  induction m with
  | nil => simp [HotkeyMap.insert, HotkeyMap.erase]
  | cons e rest ih =>
    obtain ⟨k', v'⟩ := e
    unfold HotkeyMap.insert
    by_cases h1 : strLt k k' = true
    · simp [h1, HotkeyMap.erase]
    · by_cases h2 : k' = k
      · subst h2
        simp [h1, HotkeyMap.erase]
      · simp [h1, h2, HotkeyMap.erase, ih]

theorem HotkeyMap.mem_of_find (m : HotkeyMap) (k : String) (v : Int) (h : m.find k = some v) :
    (k, v) ∈ m := by
  induction m with
  | nil => simp [HotkeyMap.find] at h
  | cons e rest ih =>
    obtain ⟨k', v'⟩ := e
    by_cases h1 : k' = k
    · simp [HotkeyMap.find, h1] at h
      simp [h1, h]
    · simp only [HotkeyMap.find, h1, if_false] at h
      exact List.mem_cons_of_mem _ (ih h)

theorem HotkeyMap.registrations_erase (m : HotkeyMap) (k : String) :
    (m.erase k).registrations k = 0 := by
  induction m with
  | nil => simp [HotkeyMap.erase, HotkeyMap.registrations]
  | cons e rest ih =>
    obtain ⟨k', v'⟩ := e
    by_cases h : k' = k
    · simpa [HotkeyMap.erase, h] using ih
    · simp only [HotkeyMap.registrations] at ih
      simp [HotkeyMap.erase, h, HotkeyMap.registrations, ih]

theorem HotkeyMap.registrations_insert (m : HotkeyMap) (k : String) (v : Int)
    (h : m.registrations k = 0) : (m.insert k v).registrations k = 1 := by
  induction m with
  | nil => simp [HotkeyMap.insert, HotkeyMap.registrations]
  | cons e rest ih =>
    obtain ⟨k', v'⟩ := e
    by_cases h2 : k' = k
    · simp [HotkeyMap.registrations, h2] at h
    · have h3 : HotkeyMap.registrations rest k = 0 := by
        simpa [HotkeyMap.registrations, h2] using h
      unfold HotkeyMap.insert
      by_cases h1 : strLt k k' = true
      · simp only [HotkeyMap.registrations] at h3
        simp [h1, HotkeyMap.registrations, h2, h3]
      · have := ih h3
        simp only [HotkeyMap.registrations] at this
        simp [h1, h2, HotkeyMap.registrations, this]

/-! ## Lemmas on the operating system table -/

theorem OsTable.lookup_unbind_self (t : OsTable) (id : Int) : (t.unbind id).lookup id = none := by
  induction t with
  | nil => simp [OsTable.unbind, OsTable.lookup]
  | cons e rest ih =>
    obtain ⟨i, d⟩ := e
    by_cases h : i = id
    · simpa [OsTable.unbind, h] using ih
    · simpa [OsTable.unbind, h, OsTable.lookup] using ih

theorem OsTable.lookup_unbind_ne (t : OsTable) (id j : Int) (h : id ≠ j) :
    (t.unbind id).lookup j = t.lookup j := by
  induction t with
  | nil => simp [OsTable.unbind, OsTable.lookup]
  | cons e rest ih =>
    obtain ⟨i, d⟩ := e
    by_cases h1 : i = id
    · subst h1
      simpa [OsTable.unbind, OsTable.lookup, h] using ih
    · by_cases h2 : i = j
      · subst h2
        simp [OsTable.unbind, h1, OsTable.lookup]
      · simpa [OsTable.unbind, h1, OsTable.lookup, h2] using ih

theorem OsTable.lookup_bind_self (t : OsTable) (id : Int) (d : Nat × Nat) :
    (t.bind id d).lookup id = some d := by
  simp [OsTable.bind, OsTable.lookup]

theorem OsTable.lookup_bind_ne (t : OsTable) (id j : Int) (d : Nat × Nat) (h : id ≠ j) :
    (t.bind id d).lookup j = t.lookup j := by
  simp only [OsTable.bind, OsTable.lookup, h, if_false]
  exact OsTable.lookup_unbind_ne t id j h

/-! ## Lemmas on the key encoding -/

theorem keyToVk_ne_zero_of_supported (key : List (Fin 256)) (h : SupportedKey key) :
    keyToVk key ≠ 0 := by
  obtain ⟨c, rfl, hc⟩ := h
  simp only [keyToVk, toupper, isLetter, isDigit] at *
  split_ifs <;> omega

theorem keyToVk_eq_zero_of_unsupported (key : List (Fin 256)) (h : ¬ SupportedKey key) :
    keyToVk key = 0 := by
  match key, h with
  | [], _ => rfl
  | _ :: _ :: _, _ => rfl
  | [c], h =>
    have hc : ¬ (isLetter c ∨ isDigit c) := fun hc => h ⟨c, rfl, hc⟩
    simp only [keyToVk, toupper, isLetter, isDigit] at *
    split_ifs <;> omega

/-! ## Lemmas on the methods -/

theorem UnregisterShortcut_map (n : String) (s : State) :
    (UnregisterShortcut n s).m_registeredHotkeys = s.m_registeredHotkeys.erase n := by
  unfold UnregisterShortcut
  cases h : s.m_registeredHotkeys.find n with
  | none => simp [HotkeyMap.erase_of_find_none _ _ h]
  | some id => simp [State.callUnregisterHotKey]

theorem UnregisterShortcut_next (n : String) (s : State) :
    (UnregisterShortcut n s).m_nextHotkeyId = s.m_nextHotkeyId := by
  unfold UnregisterShortcut
  cases h : s.m_registeredHotkeys.find n <;> simp [State.callUnregisterHotKey]

theorem UnregisterShortcut_os (n : String) (s : State) :
    (UnregisterShortcut n s).osHotkeys =
      match s.m_registeredHotkeys.find n with
      | some id => s.osHotkeys.unbind id
      | none => s.osHotkeys := by
  unfold UnregisterShortcut
  cases h : s.m_registeredHotkeys.find n <;> simp [State.callUnregisterHotKey]

theorem UnregisterShortcut_of_absent (n : String) (s : State)
    (h : s.m_registeredHotkeys.find n = none) : UnregisterShortcut n s = s := by
  simp [UnregisterShortcut, h]

theorem RegisterShortcut_of_unsupported (n : String) (key : List (Fin 256))
    (ctrl shift alt win osOk : Bool) (s : State) (h : keyToVk key = 0) :
    RegisterShortcut n key ctrl shift alt win osOk s = s := by
  simp [RegisterShortcut, h]

theorem RegisterShortcut_eq (n : String) (key : List (Fin 256))
    (ctrl shift alt win osOk : Bool) (s : State) (h : keyToVk key ≠ 0) :
    RegisterShortcut n key ctrl shift alt win osOk s =
      let s1 := UnregisterShortcut n s
      let s2 := ({ s1 with
                    m_nextHotkeyId := wrapInt32 (s1.m_nextHotkeyId + 1)
                    m_registeredHotkeys := s1.m_registeredHotkeys.insert n s1.m_nextHotkeyId }
                  : State).callRegisterHotKey s1.m_nextHotkeyId
                    (buildModifiers ctrl shift alt win) (keyToVk key) osOk
      if osOk then s2 else { s2 with m_registeredHotkeys := s2.m_registeredHotkeys.erase n } := by
  unfold RegisterShortcut
  cases hf : s.m_registeredHotkeys.find n with
  | none => simp [h, hf, UnregisterShortcut_of_absent n s hf]
  | some id => simp [h, hf]

theorem RegisterShortcut_map (n : String) (key : List (Fin 256))
    (ctrl shift alt win osOk : Bool) (s : State) (h : keyToVk key ≠ 0) :
    (RegisterShortcut n key ctrl shift alt win osOk s).m_registeredHotkeys =
      if osOk then (s.m_registeredHotkeys.erase n).insert n s.m_nextHotkeyId
      else s.m_registeredHotkeys.erase n := by
  rw [RegisterShortcut_eq n key ctrl shift alt win osOk s h]
  cases osOk
  · simp [State.callRegisterHotKey, UnregisterShortcut_map, UnregisterShortcut_next,
      HotkeyMap.erase_insert, HotkeyMap.erase_erase]
  · simp [State.callRegisterHotKey, UnregisterShortcut_map, UnregisterShortcut_next]

theorem RegisterShortcut_next (n : String) (key : List (Fin 256))
    (ctrl shift alt win osOk : Bool) (s : State) (h : keyToVk key ≠ 0) :
    (RegisterShortcut n key ctrl shift alt win osOk s).m_nextHotkeyId =
      wrapInt32 (s.m_nextHotkeyId + 1) := by
  rw [RegisterShortcut_eq n key ctrl shift alt win osOk s h]
  cases osOk <;> simp [State.callRegisterHotKey, UnregisterShortcut_next]

theorem RegisterShortcut_os (n : String) (key : List (Fin 256))
    (ctrl shift alt win osOk : Bool) (s : State) (h : keyToVk key ≠ 0) :
    (RegisterShortcut n key ctrl shift alt win osOk s).osHotkeys =
      if osOk then
        (UnregisterShortcut n s).osHotkeys.bind s.m_nextHotkeyId
          (buildModifiers ctrl shift alt win, keyToVk key)
      else (UnregisterShortcut n s).osHotkeys := by
  rw [RegisterShortcut_eq n key ctrl shift alt win osOk s h]
  cases osOk <;> simp [State.callRegisterHotKey, UnregisterShortcut_next]

theorem RegisterShortcut_calls (n : String) (key : List (Fin 256))
    (ctrl shift alt win osOk : Bool) (s : State) (h : keyToVk key ≠ 0) :
    (RegisterShortcut n key ctrl shift alt win osOk s).osCalls =
      OsCall.RegisterHotKey s.m_nextHotkeyId (buildModifiers ctrl shift alt win) (keyToVk key) osOk
        :: (UnregisterShortcut n s).osCalls := by
  rw [RegisterShortcut_eq n key ctrl shift alt win osOk s h]
  cases osOk <;> simp [State.callRegisterHotKey, UnregisterShortcut_next]

theorem HotkeyMap.mem_erase (m : HotkeyMap) (k j : String) (w : Int) :
    (j, w) ∈ m.erase k ↔ (j, w) ∈ m ∧ j ≠ k := by
  induction m with
  | nil => simp [HotkeyMap.erase]
  | cons e rest ih =>
    obtain ⟨k', v'⟩ := e
    by_cases h : k' = k
    · subst h
      simp only [HotkeyMap.erase, if_true, ih, List.mem_cons, Prod.mk.injEq]
      constructor
      · rintro ⟨h1, h2⟩
        exact ⟨Or.inr h1, h2⟩
      · rintro ⟨h1 | h1, h2⟩
        · exact absurd h1.1 h2
        · exact ⟨h1, h2⟩
    · simp only [HotkeyMap.erase, h, if_false, List.mem_cons, ih, Prod.mk.injEq]
      constructor
      · rintro (⟨h1, h2⟩ | ⟨h1, h2⟩)
        · exact ⟨Or.inl ⟨h1, h2⟩, by rw [h1]; exact h⟩
        · exact ⟨Or.inr h1, h2⟩
      · rintro ⟨h1 | h1, h2⟩
        · exact Or.inl h1
        · exact Or.inr ⟨h1, h2⟩

theorem HotkeyMap.mem_insert (m : HotkeyMap) (k : String) (v : Int) (e : String × Int)
    (h : e ∈ m.insert k v) : e = (k, v) ∨ e ∈ m := by
  induction m with
  | nil => simpa [HotkeyMap.insert] using h
  | cons e' rest ih =>
    obtain ⟨k', v'⟩ := e'
    unfold HotkeyMap.insert at h
    by_cases h1 : strLt k k' = true
    · rw [if_pos h1] at h
      rcases List.mem_cons.mp h with h | h
      · exact Or.inl h
      · exact Or.inr h
    · rw [if_neg h1] at h
      by_cases h2 : k' = k
      · rw [if_pos h2] at h
        rcases List.mem_cons.mp h with h | h
        · exact Or.inl h
        · exact Or.inr (List.mem_cons_of_mem _ h)
      · rw [if_neg h2] at h
        rcases List.mem_cons.mp h with h | h
        · exact Or.inr (by rw [h]; exact List.mem_cons_self _ _)
        · rcases ih h with h3 | h3
          · exact Or.inl h3
          · exact Or.inr (List.mem_cons_of_mem _ h3)

theorem HotkeyMap.mem_insert_self (m : HotkeyMap) (k : String) (v w : Int)
    (h : (k, w) ∈ m.insert k v) : w = v ∨ (k, w) ∈ m := by
  rcases HotkeyMap.mem_insert m k v (k, w) h with h | h
  · exact Or.inl (congrArg Prod.snd h)
  · exact Or.inr h

theorem fold_unbind_map (m : HotkeyMap) (s : State) :
    (m.foldl (fun acc pair => acc.callUnregisterHotKey pair.2) s).m_registeredHotkeys =
      s.m_registeredHotkeys ∧
    (m.foldl (fun acc pair => acc.callUnregisterHotKey pair.2) s).m_nextHotkeyId =
      s.m_nextHotkeyId := by
  induction m generalizing s with
  | nil => exact ⟨rfl, rfl⟩
  | cons e rest ih =>
    simp only [List.foldl_cons]
    exact ⟨(ih _).1, (ih _).2⟩

theorem fold_unbind_keeps_none (m : HotkeyMap) (s : State) (id : Int)
    (h : s.osHotkeys.lookup id = none) :
    (m.foldl (fun acc pair => acc.callUnregisterHotKey pair.2) s).osHotkeys.lookup id = none := by
  induction m generalizing s with
  | nil => exact h
  | cons e rest ih =>
    simp only [List.foldl_cons]
    apply ih
    by_cases h1 : e.2 = id
    · simp [State.callUnregisterHotKey, h1, OsTable.lookup_unbind_self]
    · simp [State.callUnregisterHotKey, OsTable.lookup_unbind_ne _ _ _ h1, h]

theorem fold_unbind_of_mem (m : HotkeyMap) (s : State) (n : String) (id : Int)
    (h : (n, id) ∈ m) :
    (m.foldl (fun acc pair => acc.callUnregisterHotKey pair.2) s).osHotkeys.lookup id = none ∧
    OsCall.UnregisterHotKey id ∈
      (m.foldl (fun acc pair => acc.callUnregisterHotKey pair.2) s).osCalls := by
  have keep : ∀ (l : HotkeyMap) (t : State), OsCall.UnregisterHotKey id ∈ t.osCalls →
      OsCall.UnregisterHotKey id ∈
        (l.foldl (fun acc pair => acc.callUnregisterHotKey pair.2) t).osCalls := by
    intro l
    induction l with
    | nil => intro t ht; exact ht
    | cons e rest ih =>
      intro t ht
      simp only [List.foldl_cons]
      exact ih _ (by simp [State.callUnregisterHotKey, ht])
  induction m generalizing s with
  | nil => simp at h
  | cons e rest ih =>
    simp only [List.foldl_cons]
    rcases List.mem_cons.mp h with h1 | h1
    · subst h1
      constructor
      · apply fold_unbind_keeps_none
        simp [State.callUnregisterHotKey, OsTable.lookup_unbind_self]
      · apply keep
        simp [State.callUnregisterHotKey]
    · exact ih _ h1

/-! ## Properties of single calls -/

/-- C5: a key string that is empty, longer than one character, or one character that is neither
a letter nor a digit makes `RegisterShortcut` consume no hot-key id, make no Win32 call and leave
the name-to-id map as it was. -/
theorem register_invalid_key_no_allocation (s : State) (n : String) (key : List (Fin 256))
    (ctrl shift alt win osOk : Bool)
    (h : key = [] ∨ 1 < key.length ∨ ∃ c, key = [c] ∧ ¬ isLetter c ∧ ¬ isDigit c) :
    (RegisterShortcut n key ctrl shift alt win osOk s).m_nextHotkeyId = s.m_nextHotkeyId ∧
    (RegisterShortcut n key ctrl shift alt win osOk s).osCalls = s.osCalls ∧
    (RegisterShortcut n key ctrl shift alt win osOk s).m_registeredHotkeys =
      s.m_registeredHotkeys := by
  have hu : ¬ SupportedKey key := by
    rintro ⟨c, rfl, hc⟩
    rcases h with h | h | ⟨d, hd, h1, h2⟩
    · cases h
    · simp at h
    · cases hd
      exact hc.elim h1 h2
  rw [RegisterShortcut_of_unsupported n key ctrl shift alt win osOk s
    (keyToVk_eq_zero_of_unsupported key hu)]
  exact ⟨rfl, rfl, rfl⟩

theorem register_invalid_key_no_allocation_witness :
    (RegisterShortcut "x" [35] true false false false true
        (run [.register "y" [65] true false false false true])).m_nextHotkeyId = 2 ∧
    (RegisterShortcut "x" [35] true false false false true
        (run [.register "y" [65] true false false false true])).osCalls =
      [OsCall.RegisterHotKey 1 16386 65 true] ∧
    (RegisterShortcut "x" [35] true false false false true
        (run [.register "y" [65] true false false false true])).m_registeredHotkeys =
      [("y", 1)] :=
  register_invalid_key_no_allocation (run [.register "y" [65] true false false false true])
    "x" [35] true false false false true
    (Or.inr (Or.inr ⟨35, rfl, by unfold isLetter; decide, by unfold isDigit; decide⟩))

/-- C6: the `(fsModifiers, vk)` pair that `RegisterShortcut` hands to `RegisterHotKey` is the
same for a lower-case letter and for its upper-case form, whatever the four flags, and it is
fixed by the flags and the key alone: two calls from different registry states, under different
names and with different outcomes of the bind request the same pair. -/
theorem encoding_case_insensitive (ctrl shift alt win : Bool) (lower upper : Fin 256)
    (hl : 97 ≤ lower.val ∧ lower.val ≤ 122) (hu : upper.val = lower.val - 32)
    (s₁ s₂ : State) (n₁ n₂ : String) (ok₁ ok₂ : Bool) :
    (RegisterShortcut n₁ [lower] ctrl shift alt win ok₁ s₁).lastRequested =
      some (buildModifiers ctrl shift alt win, upper.val) ∧
    (RegisterShortcut n₂ [upper] ctrl shift alt win ok₂ s₂).lastRequested =
      some (buildModifiers ctrl shift alt win, upper.val) := by
  have h1 : keyToVk [lower] = upper.val := by
    simp only [keyToVk, toupper]
    split_ifs <;> omega
  have h2 : keyToVk [upper] = upper.val := by
    simp only [keyToVk, toupper]
    split_ifs <;> omega
  have hpos : upper.val ≠ 0 := by omega
  constructor
  · simp [State.lastRequested, RegisterShortcut_calls n₁ [lower] ctrl shift alt win ok₁ s₁
      (by rw [h1]; exact hpos), h1]
  · simp [State.lastRequested, RegisterShortcut_calls n₂ [upper] ctrl shift alt win ok₂ s₂
      (by rw [h2]; exact hpos), h2]

theorem encoding_case_insensitive_witness :
    (RegisterShortcut "x" [97] true false true false true State.initial).lastRequested =
      some (buildModifiers true false true false, 0x41) ∧
    (RegisterShortcut "y" [65] true false true false false
        (run [.register "x" [66] false false false false true])).lastRequested =
      some (buildModifiers true false true false, 0x41) :=
  encoding_case_insensitive true false true false 97 65 (by decide) (by decide)
    State.initial (run [.register "x" [66] false false false false true]) "x" "y" true false

/-- C7: after `UnregisterShortcut n` the name `n` has no entry in the map; a second
`UnregisterShortcut n` leaves the whole state (map, counter, operating system table and the list
of Win32 calls) as the first one left it; and for a name without an entry the call changes
nothing, so it makes no `UnregisterHotKey` call. -/
theorem unregister_idempotent (s : State) (n : String) :
    (UnregisterShortcut n s).m_registeredHotkeys.find n = none ∧
    (UnregisterShortcut n s).m_registeredHotkeys.registrations n = 0 ∧
    UnregisterShortcut n (UnregisterShortcut n s) = UnregisterShortcut n s ∧
    (s.m_registeredHotkeys.find n = none → UnregisterShortcut n s = s) := by
  have h1 : (UnregisterShortcut n s).m_registeredHotkeys.find n = none := by
    rw [UnregisterShortcut_map]
    exact HotkeyMap.find_erase_self _ _
  refine ⟨h1, ?_, UnregisterShortcut_of_absent n _ h1, UnregisterShortcut_of_absent n s⟩
  rw [UnregisterShortcut_map]
  exact HotkeyMap.registrations_erase _ _

theorem unregister_idempotent_witness :
    (UnregisterShortcut "x" State.initial).m_registeredHotkeys.find "x" = none ∧
    (UnregisterShortcut "x" State.initial).m_registeredHotkeys.registrations "x" = 0 ∧
    UnregisterShortcut "x" (UnregisterShortcut "x" State.initial) =
      UnregisterShortcut "x" State.initial ∧
    UnregisterShortcut "x" State.initial = State.initial :=
  ⟨(unregister_idempotent State.initial "x").1, (unregister_idempotent State.initial "x").2.1,
    (unregister_idempotent State.initial "x").2.2.1,
    (unregister_idempotent State.initial "x").2.2.2 rfl⟩

/-- C8: after `UnregisterAllShortcuts` the map is empty, so the lookup of every name finds
nothing, and every hot-key id that was in the map has been passed to `UnregisterHotKey` and is
no longer bound at the operating system.  The empty registry is included. -/
theorem unregisterAll_clears (s : State) :
    (UnregisterAllShortcuts s).m_registeredHotkeys = [] ∧
    (∀ n, (UnregisterAllShortcuts s).m_registeredHotkeys.find n = none) ∧
    (∀ n id, (n, id) ∈ s.m_registeredHotkeys →
      (UnregisterAllShortcuts s).osHotkeys.lookup id = none ∧
      OsCall.UnregisterHotKey id ∈ (UnregisterAllShortcuts s).osCalls) := by
  refine ⟨rfl, fun n => rfl, fun n id h => ?_⟩
  exact fold_unbind_of_mem s.m_registeredHotkeys s n id h

theorem unregisterAll_clears_witness :
    (UnregisterAllShortcuts (run [.register "x" [65] true false false false true])).osHotkeys.lookup
        1 = none ∧
    OsCall.UnregisterHotKey 1 ∈
      (UnregisterAllShortcuts (run [.register "x" [65] true false false false true])).osCalls :=
  (unregisterAll_clears (run [.register "x" [65] true false false false true])).2.2 "x" 1
    (by decide)

/-- C9: with `"quick-note"` bound on hot-key id 1 (Ctrl+Alt+N), the window procedure called with
`WM_HOTKEY` for id 1 emits no event: its only effect is one diagnostic line. -/
theorem hotkeyWndProc_emits_nothing :
    (run [.register "quick-note" [78] true false true false true]).m_registeredHotkeys.find
        "quick-note" = some 1 ∧
    (run [.register "quick-note" [78] true false true false true]).osHotkeys.lookup 1 =
      some (0x4003, 0x4E) ∧
    (HotkeyWndProc WM_HOTKEY 1 0x004E0003).emitted = [] ∧
    ∀ wParam lParam, (HotkeyWndProc WM_HOTKEY wParam lParam).emitted = [] := by
  refine ⟨by decide, by decide, by decide, fun _ _ => ?_⟩
  simp [HotkeyWndProc]

/-- C10, as stated, fails: with `"n"` bound on hot-key id 1, `RegisterShortcut "n"` with the
unsupported key `"F1"` leaves `"n"` registered on id 1 and id 1 bound at the operating system;
no `UnregisterHotKey` call is made. -/
theorem register_invalid_key_keeps_registration_example :
    ¬ SupportedKey [70, 49] ∧
    (run [.register "n" [78] true false false false true]).m_registeredHotkeys.find "n" =
      some 1 ∧
    (RegisterShortcut "n" [70, 49] true false false false true
        (run [.register "n" [78] true false false false true])).m_registeredHotkeys.find "n" =
      some 1 ∧
    (RegisterShortcut "n" [70, 49] true false false false true
        (run [.register "n" [78] true false false false true])).osHotkeys.lookup 1 =
      some (0x4002, 0x4E) ∧
    (RegisterShortcut "n" [70, 49] true false false false true
        (run [.register "n" [78] true false false false true])).osCalls =
      [OsCall.RegisterHotKey 1 0x4002 0x4E true] := by
  refine ⟨?_, by decide, by decide, by decide, by decide⟩
  rintro ⟨c, h, _⟩
  cases h

/-- C10, amended: `RegisterShortcut` checks the key before it looks at the registry.  When `n` is
registered on a hot-key id and the key is outside the supported vocabulary, the call returns at
that check: `n` keeps its hot-key id, the operating system table is untouched, no Win32 call is
made and no hot-key id is consumed. -/
theorem register_invalid_key_keeps_registration (s : State) (n : String) (slot : Int)
    (key : List (Fin 256)) (ctrl shift alt win osOk : Bool)
    (hreg : s.m_registeredHotkeys.find n = some slot) (hkey : ¬ SupportedKey key) :
    (RegisterShortcut n key ctrl shift alt win osOk s).m_registeredHotkeys.find n = some slot ∧
    (RegisterShortcut n key ctrl shift alt win osOk s).m_registeredHotkeys =
      s.m_registeredHotkeys ∧
    (RegisterShortcut n key ctrl shift alt win osOk s).osHotkeys = s.osHotkeys ∧
    (RegisterShortcut n key ctrl shift alt win osOk s).osCalls = s.osCalls ∧
    (RegisterShortcut n key ctrl shift alt win osOk s).m_nextHotkeyId = s.m_nextHotkeyId := by
  rw [RegisterShortcut_of_unsupported n key ctrl shift alt win osOk s
    (keyToVk_eq_zero_of_unsupported key hkey)]
  exact ⟨hreg, rfl, rfl, rfl, rfl⟩

theorem register_invalid_key_keeps_registration_witness :
    (RegisterShortcut "n" [] false true false false true
        (run [.register "n" [78] true false false false true])).m_registeredHotkeys.find "n" =
      some 1 ∧
    (RegisterShortcut "n" [] false true false false true
        (run [.register "n" [78] true false false false true])).m_registeredHotkeys =
      [("n", 1)] ∧
    (RegisterShortcut "n" [] false true false false true
        (run [.register "n" [78] true false false false true])).osHotkeys =
      [(1, (0x4002, 0x4E))] ∧
    (RegisterShortcut "n" [] false true false false true
        (run [.register "n" [78] true false false false true])).osCalls =
      [OsCall.RegisterHotKey 1 0x4002 0x4E true] ∧
    (RegisterShortcut "n" [] false true false false true
        (run [.register "n" [78] true false false false true])).m_nextHotkeyId = 2 :=
  register_invalid_key_keeps_registration (run [.register "n" [78] true false false false true])
    "n" 1 [] false true false false true (by decide)
    (by rintro ⟨c, h, _⟩; cases h)

/-- C2, as stated, fails: with `"x"` registered on hot-key id 1, a `RegisterShortcut "x"` whose
`RegisterHotKey` fails leaves the map empty, not as it was before the call. -/
theorem bind_failure_drops_registration_example :
    SupportedKey [66] ∧
    (run [.register "x" [65] true false false false true]).m_registeredHotkeys = [("x", 1)] ∧
    (RegisterShortcut "x" [66] true false false false false
        (run [.register "x" [65] true false false false true])).m_registeredHotkeys = [] ∧
    (RegisterShortcut "x" [66] true false false false false
        (run [.register "x" [65] true false false false true])).m_registeredHotkeys ≠
      (run [.register "x" [65] true false false false true]).m_registeredHotkeys := by
  refine ⟨⟨66, rfl, Or.inl ?_⟩, by decide, by decide, by decide⟩
  unfold isLetter
  decide

/-- C2, amended: when the `RegisterHotKey` made by `RegisterShortcut` for a supported key fails,
the map after the call is the map before the call without the entry of the name: every other
name keeps its hot-key id, and for a name that had no entry the map is exactly the one before
the call. -/
theorem bind_failure_map (s : State) (n : String) (key : List (Fin 256))
    (ctrl shift alt win : Bool) (hkey : SupportedKey key) :
    (RegisterShortcut n key ctrl shift alt win false s).m_registeredHotkeys =
      s.m_registeredHotkeys.erase n ∧
    (∀ j, j ≠ n →
      (RegisterShortcut n key ctrl shift alt win false s).m_registeredHotkeys.find j =
        s.m_registeredHotkeys.find j) ∧
    (s.m_registeredHotkeys.find n = none →
      (RegisterShortcut n key ctrl shift alt win false s).m_registeredHotkeys =
        s.m_registeredHotkeys) := by
  have hm := RegisterShortcut_map n key ctrl shift alt win false s
    (keyToVk_ne_zero_of_supported key hkey)
  simp only [Bool.false_eq_true, if_false] at hm
  refine ⟨hm, fun j hj => ?_, fun h => ?_⟩
  · rw [hm]
    exact HotkeyMap.find_erase_ne _ _ _ (Ne.symm hj)
  · rw [hm]
    exact HotkeyMap.erase_of_find_none _ _ h

theorem bind_failure_map_witness :
    (RegisterShortcut "y" [66] true false false false false
        (run [.register "x" [65] true false false false true])).m_registeredHotkeys =
      [("x", 1)] :=
  (bind_failure_map (run [.register "x" [65] true false false false true]) "y" [66]
    true false false false ⟨66, rfl, Or.inl (by unfold isLetter; decide)⟩).2.2 (by decide)

/-- C1: from any registry state, two `RegisterShortcut` calls for the same name `x` with
supported keys whose `RegisterHotKey` both succeed leave `x` with exactly one entry in the map;
the first call uses hot-key id `m_nextHotkeyId`, the second the 32-bit successor of it; the
only hot-key id that the map gives to `x` and that is bound at the operating system is the
second, it is bound to the second descriptor, and the id used by the first call is not bound
any more; an id that `x` held before the two calls is not bound either, unless it is the very
id the second call has taken. -/
theorem register_twice_replaces (s : State) (x : String)
    (keyA : List (Fin 256)) (ctrlA shiftA altA winA : Bool)
    (keyB : List (Fin 256)) (ctrlB shiftB altB winB : Bool)
    (hA : SupportedKey keyA) (hB : SupportedKey keyB) :
    (RegisterShortcut x keyA ctrlA shiftA altA winA true s).m_registeredHotkeys.find x =
      some s.m_nextHotkeyId ∧
    (RegisterShortcut x keyA ctrlA shiftA altA winA true s).osHotkeys.lookup s.m_nextHotkeyId =
      some (buildModifiers ctrlA shiftA altA winA, keyToVk keyA) ∧
    (RegisterShortcut x keyB ctrlB shiftB altB winB true
      (RegisterShortcut x keyA ctrlA shiftA altA winA true s)).m_registeredHotkeys.find x =
      some (wrapInt32 (s.m_nextHotkeyId + 1)) ∧
    (RegisterShortcut x keyB ctrlB shiftB altB winB true
      (RegisterShortcut x keyA ctrlA shiftA altA winA true s)).m_registeredHotkeys.registrations x
      = 1 ∧
    (∀ id, ((x, id) ∈ (RegisterShortcut x keyB ctrlB shiftB altB winB true
          (RegisterShortcut x keyA ctrlA shiftA altA winA true s)).m_registeredHotkeys ∧
        ((RegisterShortcut x keyB ctrlB shiftB altB winB true
          (RegisterShortcut x keyA ctrlA shiftA altA winA true s)).osHotkeys.lookup id).isSome)
      ↔ id = wrapInt32 (s.m_nextHotkeyId + 1)) ∧
    (RegisterShortcut x keyB ctrlB shiftB altB winB true
      (RegisterShortcut x keyA ctrlA shiftA altA winA true s)).osHotkeys.lookup
        (wrapInt32 (s.m_nextHotkeyId + 1)) =
      some (buildModifiers ctrlB shiftB altB winB, keyToVk keyB) ∧
    (RegisterShortcut x keyB ctrlB shiftB altB winB true
      (RegisterShortcut x keyA ctrlA shiftA altA winA true s)).osHotkeys.lookup s.m_nextHotkeyId
      = none ∧
    (∀ old, s.m_registeredHotkeys.find x = some old → old ≠ wrapInt32 (s.m_nextHotkeyId + 1) →
      (RegisterShortcut x keyB ctrlB shiftB altB winB true
        (RegisterShortcut x keyA ctrlA shiftA altA winA true s)).osHotkeys.lookup old = none) := by
  have hvA := keyToVk_ne_zero_of_supported keyA hA
  have hvB := keyToVk_ne_zero_of_supported keyB hB
  have m1 := RegisterShortcut_map x keyA ctrlA shiftA altA winA true s hvA
  have n1 := RegisterShortcut_next x keyA ctrlA shiftA altA winA true s hvA
  have o1 := RegisterShortcut_os x keyA ctrlA shiftA altA winA true s hvA
  simp only [if_true] at m1 o1
  have f1 : (RegisterShortcut x keyA ctrlA shiftA altA winA true s).m_registeredHotkeys.find x =
      some s.m_nextHotkeyId := by
    rw [m1]
    exact HotkeyMap.find_insert_self _ _ _
  have m2 := RegisterShortcut_map x keyB ctrlB shiftB altB winB true
    (RegisterShortcut x keyA ctrlA shiftA altA winA true s) hvB
  have o2 := RegisterShortcut_os x keyB ctrlB shiftB altB winB true
    (RegisterShortcut x keyA ctrlA shiftA altA winA true s) hvB
  simp only [if_true, n1] at m2 o2
  rw [UnregisterShortcut_os, f1] at o2
  simp only at o2
  have hne : wrapInt32 (s.m_nextHotkeyId + 1) ≠ s.m_nextHotkeyId := by
    unfold wrapInt32
    omega
  have b2 : (RegisterShortcut x keyB ctrlB shiftB altB winB true
      (RegisterShortcut x keyA ctrlA shiftA altA winA true s)).osHotkeys.lookup
        (wrapInt32 (s.m_nextHotkeyId + 1)) =
      some (buildModifiers ctrlB shiftB altB winB, keyToVk keyB) := by
    rw [o2]
    exact OsTable.lookup_bind_self _ _ _
  have u1 : (RegisterShortcut x keyB ctrlB shiftB altB winB true
      (RegisterShortcut x keyA ctrlA shiftA altA winA true s)).osHotkeys.lookup s.m_nextHotkeyId
      = none := by
    rw [o2, OsTable.lookup_bind_ne _ _ _ _ hne]
    exact OsTable.lookup_unbind_self _ _
  refine ⟨f1, ?_, ?_, ?_, ?_, b2, u1, ?_⟩
  · rw [o1]
    exact OsTable.lookup_bind_self _ _ _
  · rw [m2]
    exact HotkeyMap.find_insert_self _ _ _
  · rw [m2]
    exact HotkeyMap.registrations_insert _ _ _ (HotkeyMap.registrations_erase _ _)
  · intro id
    constructor
    · rintro ⟨hmem, _⟩
      rw [m2] at hmem
      rcases HotkeyMap.mem_insert_self _ _ _ _ hmem with h | h
      · exact h
      · exact absurd rfl ((HotkeyMap.mem_erase _ _ _ _).mp h).2
    · rintro rfl
      refine ⟨HotkeyMap.mem_of_find _ _ _ ?_, by rw [b2]; rfl⟩
      rw [m2]
      exact HotkeyMap.find_insert_self _ _ _
  · intro old hold hfresh
    by_cases e : old = s.m_nextHotkeyId
    · rw [e]
      exact u1
    · rw [o2, OsTable.lookup_bind_ne _ _ _ _ (Ne.symm hfresh),
        OsTable.lookup_unbind_ne _ _ _ (Ne.symm e), o1,
        OsTable.lookup_bind_ne _ _ _ _ (Ne.symm e), UnregisterShortcut_os, hold]
      exact OsTable.lookup_unbind_self _ _

theorem register_twice_replaces_witness :
    (RegisterShortcut "x" [66] false true false false true
      (RegisterShortcut "x" [65] true false false false true
        (run [.register "x" [67] false false true false true]))).m_registeredHotkeys.registrations
        "x" = 1 ∧
    (RegisterShortcut "x" [66] false true false false true
      (RegisterShortcut "x" [65] true false false false true
        (run [.register "x" [67] false false true false true]))).osHotkeys.lookup 3 =
      some (0x4004, 0x42) ∧
    (RegisterShortcut "x" [66] false true false false true
      (RegisterShortcut "x" [65] true false false false true
        (run [.register "x" [67] false false true false true]))).osHotkeys.lookup 2 = none ∧
    (RegisterShortcut "x" [66] false true false false true
      (RegisterShortcut "x" [65] true false false false true
        (run [.register "x" [67] false false true false true]))).osHotkeys.lookup 1 = none :=
  have h := register_twice_replaces (run [.register "x" [67] false false true false true]) "x"
    [65] true false false false [66] false true false false
    ⟨65, rfl, Or.inl (by unfold isLetter; decide)⟩
    ⟨66, rfl, Or.inl (by unfold isLetter; decide)⟩
  ⟨h.2.2.2.1, h.2.2.2.2.2.1, h.2.2.2.2.2.2.1, h.2.2.2.2.2.2.2 1 (by decide) (by decide)⟩

/-! ## Reachable states -/

theorem wrapInt32_succ_wrapInt32 (n : Int) : wrapInt32 (wrapInt32 n + 1) = wrapInt32 (n + 1) := by
  unfold wrapInt32
  omega

theorem wrapInt32_of_range (n : Int) (h₁ : -2147483648 ≤ n) (h₂ : n ≤ 2147483647) :
    wrapInt32 n = n := by
  unfold wrapInt32
  omega

theorem wrapInt32_ne_of_near (c j : Int) (h₁ : j < c) (h₂ : c - j < 4294967296) :
    wrapInt32 c ≠ wrapInt32 j := by
  unfold wrapInt32
  omega

theorem consistent_initial (g : String → Option (Nat × Nat)) :
    Consistent g 1 State.initial := by
  refine ⟨by decide, by decide, ?_, ?_, ?_, ?_⟩
  · intro n id h
    simp [State.initial, HotkeyMap.find] at h
  · intro n₁ n₂ id h
    simp [State.initial, HotkeyMap.find] at h
  · intro id
    simp [State.initial, HotkeyMap.find, OsTable.lookup]
  · intro n id h
    simp [State.initial, HotkeyMap.find] at h

theorem consistent_unregister (g : String → Option (Nat × Nat)) (c : Int) (s : State)
    (n : String) (h : Consistent g c s) : Consistent g c (UnregisterShortcut n s) := by
  obtain ⟨h0, hc, h1, h2, h3, h4⟩ := h
  cases hf : s.m_registeredHotkeys.find n with
  | none =>
    rw [UnregisterShortcut_of_absent n s hf]
    exact ⟨h0, hc, h1, h2, h3, h4⟩
  | some old =>
    have hm := UnregisterShortcut_map n s
    have hn := UnregisterShortcut_next n s
    have ho := UnregisterShortcut_os n s
    rw [hf] at ho
    simp only at ho
    have back : ∀ m id, (UnregisterShortcut n s).m_registeredHotkeys.find m = some id →
        m ≠ n ∧ s.m_registeredHotkeys.find m = some id := by
      intro m id hm'
      rw [hm] at hm'
      by_cases e : m = n
      · subst e
        rw [HotkeyMap.find_erase_self] at hm'
        cases hm'
      · rw [HotkeyMap.find_erase_ne _ _ _ (Ne.symm e)] at hm'
        exact ⟨e, hm'⟩
    have notold : ∀ m id, (UnregisterShortcut n s).m_registeredHotkeys.find m = some id →
        old ≠ id := by
      intro m id hm' e
      obtain ⟨hne, hfm⟩ := back m id hm'
      subst e
      exact hne (h2 m n old hfm hf)
    refine ⟨h0, by rw [hn]; exact hc, ?_, ?_, ?_, ?_⟩
    · intro m id hm'
      exact h1 m id (back m id hm').2
    · intro n₁ n₂ id ha hb
      exact h2 n₁ n₂ id (back n₁ id ha).2 (back n₂ id hb).2
    · intro id
      rw [ho]
      by_cases e : old = id
      · subst e
        rw [OsTable.lookup_unbind_self]
        constructor
        · intro hx
          cases hx
        · rintro ⟨m, hm'⟩
          exact absurd rfl (notold m old hm')
      · rw [OsTable.lookup_unbind_ne _ _ _ e, h3 id]
        constructor
        · rintro ⟨m, hm'⟩
          have hmn : m ≠ n := by
            rintro rfl
            rw [hf] at hm'
            exact e (Option.some.inj hm')
          exact ⟨m, by rw [hm, HotkeyMap.find_erase_ne _ _ _ (Ne.symm hmn)]; exact hm'⟩
        · rintro ⟨m, hm'⟩
          exact ⟨m, (back m id hm').2⟩
    · intro m id hm'
      rw [ho, OsTable.lookup_unbind_ne _ _ _ (notold m id hm')]
      exact h4 m id (back m id hm').2

theorem consistent_unregisterAll (g : String → Option (Nat × Nat)) (c : Int) (s : State)
    (h : Consistent g c s) : Consistent g c (UnregisterAllShortcuts s) := by
  obtain ⟨h0, hc, h1, h2, h3, h4⟩ := h
  have hn : (UnregisterAllShortcuts s).m_nextHotkeyId = s.m_nextHotkeyId :=
    (fold_unbind_map s.m_registeredHotkeys s).2
  have hm : (UnregisterAllShortcuts s).m_registeredHotkeys = [] := rfl
  have hos : ∀ id, (UnregisterAllShortcuts s).osHotkeys.lookup id = none := by
    intro id
    cases hl : s.osHotkeys.lookup id with
    | none => exact fold_unbind_keeps_none s.m_registeredHotkeys s id hl
    | some d =>
      obtain ⟨m, hm'⟩ := (h3 id).mp (by rw [hl]; rfl)
      exact (fold_unbind_of_mem s.m_registeredHotkeys s m id
        (HotkeyMap.mem_of_find _ _ _ hm')).1
  refine ⟨h0, by rw [hn]; exact hc, ?_, ?_, ?_, ?_⟩
  · intro m id hm'
    rw [hm] at hm'
    cases hm'
  · intro n₁ n₂ id ha
    rw [hm] at ha
    cases ha
  · intro id
    rw [hos id, hm]
    simp [HotkeyMap.find]
  · intro m id hm'
    rw [hm] at hm'
    cases hm'

theorem consistent_register (g : String → Option (Nat × Nat)) (c : Int) (s : State)
    (n : String) (key : List (Fin 256)) (ctrl shift alt win osOk : Bool) (hv : keyToVk key ≠ 0)
    (hbound : c ≤ 4294967296) (h : Consistent g c s) :
    Consistent
      (fun m => if n = m ∧ osOk = true then some (buildModifiers ctrl shift alt win, keyToVk key)
                else g m)
      (c + 1) (RegisterShortcut n key ctrl shift alt win osOk s) := by
  have hu := consistent_unregister g c s n h
  have hm := RegisterShortcut_map n key ctrl shift alt win osOk s hv
  have hn := RegisterShortcut_next n key ctrl shift alt win osOk s hv
  have ho := RegisterShortcut_os n key ctrl shift alt win osOk s hv
  rw [← UnregisterShortcut_map n s] at hm
  rw [← UnregisterShortcut_next n s] at hm hn ho
  have habs : (UnregisterShortcut n s).m_registeredHotkeys.find n = none := by
    rw [UnregisterShortcut_map]
    exact HotkeyMap.find_erase_self _ _
  generalize UnregisterShortcut n s = u at hu hm hn ho habs
  generalize RegisterShortcut n key ctrl shift alt win osOk s = r at hm hn ho
  obtain ⟨h0, hc, h1, h2, h3, h4⟩ := hu
  have unused : ∀ m id, u.m_registeredHotkeys.find m = some id → u.m_nextHotkeyId ≠ id := by
    intro m id hm'
    obtain ⟨j, hj1, hj2, hj3⟩ := h1 m id hm'
    rw [hc, hj3]
    exact wrapInt32_ne_of_near c j hj2 (by omega)
  have fresh : u.osHotkeys.lookup u.m_nextHotkeyId = none := by
    cases hl : u.osHotkeys.lookup u.m_nextHotkeyId with
    | none => rfl
    | some d =>
      obtain ⟨m, hm'⟩ := (h3 _).mp (by rw [hl]; rfl)
      exact absurd rfl (unused m _ hm')
  have other : ∀ m, m ≠ n → r.m_registeredHotkeys.find m = u.m_registeredHotkeys.find m := by
    intro m e
    rw [hm]
    cases osOk
    · simp only [Bool.false_eq_true, if_false]
    · simp only [if_true]
      rw [HotkeyMap.find_insert_ne _ _ _ _ (Ne.symm e)]
  have self : r.m_registeredHotkeys.find n =
      if osOk = true then some u.m_nextHotkeyId else none := by
    rw [hm]
    cases osOk
    · simp only [Bool.false_eq_true, if_false]
      exact habs
    · simp only [if_true]
      exact HotkeyMap.find_insert_self _ _ _
  have old : ∀ m id, r.m_registeredHotkeys.find m = some id → m ≠ n →
      u.m_registeredHotkeys.find m = some id ∧ u.m_nextHotkeyId ≠ id := by
    intro m id hm' e
    rw [other m e] at hm'
    exact ⟨hm', unused m id hm'⟩
  refine ⟨by omega, by rw [hn, hc]; exact wrapInt32_succ_wrapInt32 c, ?_, ?_, ?_, ?_⟩
  · intro m id hm'
    by_cases e : m = n
    · subst e
      rw [self] at hm'
      cases osOk
      · simp at hm'
      · simp only [if_true, Option.some.injEq] at hm'
        exact ⟨c, h0, by omega, by rw [← hm', hc]⟩
    · obtain ⟨j, hj1, hj2, hj3⟩ := h1 m id (old m id hm' e).1
      exact ⟨j, hj1, by omega, hj3⟩
  · intro n₁ n₂ id ha hb
    by_cases e₁ : n₁ = n
    · by_cases e₂ : n₂ = n
      · rw [e₁, e₂]
      · exfalso
        subst e₁
        rw [self] at ha
        cases osOk
        · simp at ha
        · simp only [if_true, Option.some.injEq] at ha
          exact (old n₂ id hb e₂).2 ha
    · by_cases e₂ : n₂ = n
      · exfalso
        subst e₂
        rw [self] at hb
        cases osOk
        · simp at hb
        · simp only [if_true, Option.some.injEq] at hb
          exact (old n₁ id ha e₁).2 hb
      · exact h2 n₁ n₂ id (old n₁ id ha e₁).1 (old n₂ id hb e₂).1
  · intro id
    by_cases e : u.m_nextHotkeyId = id
    · subst e
      cases osOk
      · simp only [Bool.false_eq_true, if_false] at ho self
        rw [ho, fresh]
        constructor
        · intro hx
          cases hx
        · rintro ⟨m, hm'⟩
          by_cases e : m = n
          · subst e
            rw [self] at hm'
            cases hm'
          · exact absurd rfl (old m _ hm' e).2
      · simp only [if_true] at ho self
        rw [ho, OsTable.lookup_bind_self]
        exact ⟨fun _ => ⟨n, self⟩, fun _ => rfl⟩
    · have hl : r.osHotkeys.lookup id = u.osHotkeys.lookup id := by
        rw [ho]
        cases osOk
        · simp
        · simp only [if_true]
          exact OsTable.lookup_bind_ne _ _ _ _ e
      rw [hl, h3 id]
      constructor
      · rintro ⟨m, hm'⟩
        have hmn : m ≠ n := by
          rintro rfl
          rw [habs] at hm'
          cases hm'
        exact ⟨m, by rw [other m hmn]; exact hm'⟩
      · rintro ⟨m, hm'⟩
        by_cases e' : m = n
        · subst e'
          rw [self] at hm'
          cases osOk
          · simp at hm'
          · simp only [if_true, Option.some.injEq] at hm'
            exact absurd hm' e
        · exact ⟨m, (old m id hm' e').1⟩
  · intro m id hm'
    by_cases e : m = n
    · subst e
      rw [self] at hm'
      cases osOk
      · simp at hm'
      · simp only [if_true, Option.some.injEq] at hm'
        subst hm'
        simp only [if_true] at ho
        rw [ho, OsTable.lookup_bind_self]
        simp
    · obtain ⟨hu', hne⟩ := old m id hm' e
      have hl : r.osHotkeys.lookup id = u.osHotkeys.lookup id := by
        rw [ho]
        cases osOk
        · simp
        · simp only [if_true]
          exact OsTable.lookup_bind_ne _ _ _ _ hne
      rw [hl, h4 m id hu']
      simp [Ne.symm e]

theorem run_append (ops : List Op) (op : Op) : run (ops ++ [op]) = step (run ops) op := by
  simp [run, List.foldl_append]

theorem lastSuccessful_append (name : String) (ops : List Op) (op : Op) :
    lastSuccessful name (ops ++ [op]) =
      match op with
      | .register shortcutId key ctrl shift alt win osOk =>
        if shortcutId = name ∧ keyToVk key ≠ 0 ∧ osOk = true then
          some (buildModifiers ctrl shift alt win, keyToVk key)
        else lastSuccessful name ops
      | _ => lastSuccessful name ops := by
  simp only [lastSuccessful, List.foldl_append, List.foldl_cons, List.foldl_nil]

theorem acceptedCalls_append (ops : List Op) (op : Op) :
    acceptedCalls (ops ++ [op]) =
      acceptedCalls ops +
        (match op with
         | .register _ key _ _ _ _ _ => if keyToVk key ≠ 0 then 1 else 0
         | _ => 0) := by
  simp only [acceptedCalls, List.filter_append, List.length_append]
  cases op with
  | register shortcutId key ctrl shift alt win osOk =>
    by_cases hv : keyToVk key = 0 <;> simp [hv]
  | unregister shortcutId => rfl
  | unregisterAll => rfl

theorem run_consistent (ops : List Op) (hb : acceptedCalls ops ≤ 4294967296) :
    Consistent (fun n => lastSuccessful n ops) (1 + (acceptedCalls ops : Int)) (run ops) := by
  induction ops using List.reverseRecOn with
  | nil => exact consistent_initial _
  | append_singleton ops op ih =>
    rw [run_append]
    rw [acceptedCalls_append] at hb ⊢
    cases op with
    | register shortcutId key ctrl shift alt win osOk =>
      by_cases hv : keyToVk key = 0
      · have hg : (fun n => lastSuccessful n (ops ++ [.register shortcutId key ctrl shift alt win
            osOk])) = fun n => lastSuccessful n ops := by
          funext n
          rw [lastSuccessful_append]
          simp [hv]
        simp only [hv, ne_eq, not_true_eq_false, if_false, Nat.add_zero] at hb ⊢
        rw [hg]
        simp only [step]
        rw [RegisterShortcut_of_unsupported _ _ _ _ _ _ _ _ hv]
        exact ih hb
      · have hg : (fun n => lastSuccessful n (ops ++ [.register shortcutId key ctrl shift alt win
            osOk])) = fun m => if shortcutId = m ∧ osOk = true then
              some (buildModifiers ctrl shift alt win, keyToVk key)
            else lastSuccessful m ops := by
          funext n
          rw [lastSuccessful_append]
          simp [hv]
        simp only [hv, ne_eq, not_false_eq_true, if_true] at hb ⊢
        rw [hg]
        have hc : (1 : Int) + ((acceptedCalls ops + 1 : Nat) : Int) =
            (1 + (acceptedCalls ops : Int)) + 1 := by
          push_cast
          omega
        rw [hc]
        exact consistent_register _ _ _ shortcutId key ctrl shift alt win osOk hv (by omega)
          (ih (by omega))
    | unregister shortcutId =>
      have hg : (fun n => lastSuccessful n (ops ++ [.unregister shortcutId])) =
          fun n => lastSuccessful n ops := by
        funext n
        rw [lastSuccessful_append]
      simp only [Nat.add_zero] at hb ⊢
      rw [hg]
      exact consistent_unregister _ _ _ shortcutId (ih hb)
    | unregisterAll =>
      have hg : (fun n => lastSuccessful n (ops ++ [.unregisterAll])) =
          fun n => lastSuccessful n ops := by
        funext n
        rw [lastSuccessful_append]
      simp only [Nat.add_zero] at hb ⊢
      rw [hg]
      exact consistent_unregisterAll _ _ _ (ih hb)

theorem run_counter (ops : List Op) :
    (run ops).m_nextHotkeyId = wrapInt32 (1 + (acceptedCalls ops : Int)) := by
  induction ops using List.reverseRecOn with
  | nil => decide
  | append_singleton ops op ih =>
    rw [run_append, acceptedCalls_append]
    cases op with
    | register shortcutId key ctrl shift alt win osOk =>
      simp only [step]
      by_cases hv : keyToVk key = 0
      · rw [RegisterShortcut_of_unsupported _ _ _ _ _ _ _ _ hv]
        simpa [hv] using ih
      · rw [RegisterShortcut_next _ _ _ _ _ _ _ _ hv, ih, wrapInt32_succ_wrapInt32]
        simp only [hv, ne_eq, not_false_eq_true, if_true]
        push_cast
        rfl
    | unregister shortcutId =>
      simp only [step, UnregisterShortcut_next, Nat.add_zero]
      exact ih
    | unregisterAll =>
      have hn : (UnregisterAllShortcuts (run ops)).m_nextHotkeyId = (run ops).m_nextHotkeyId :=
        (fold_unbind_map _ _).2
      simp only [step, hn, Nat.add_zero]
      exact ih

/-! ## The map stays a `std::map` -/

theorem HotkeyMap.erase_ordered (m : HotkeyMap) (k : String) (h : m.Ordered) :
    (m.erase k).Ordered := by
  induction m with
  | nil => exact List.Pairwise.nil
  | cons e rest ih =>
    obtain ⟨k', v'⟩ := e
    obtain ⟨hh, ht⟩ := List.pairwise_cons.mp h
    by_cases e : k' = k
    · simpa [HotkeyMap.erase, e] using ih ht
    · simp only [HotkeyMap.erase, e, if_false]
      refine List.pairwise_cons.mpr ⟨?_, ih ht⟩
      rintro ⟨j, w⟩ hj
      exact hh _ ((HotkeyMap.mem_erase _ _ _ _).mp hj).1

theorem HotkeyMap.insert_ordered (m : HotkeyMap) (k : String) (v : Int) (h : m.Ordered) :
    (m.insert k v).Ordered := by
  induction m with
  | nil => simp [HotkeyMap.insert, HotkeyMap.Ordered]
  | cons e rest ih =>
    obtain ⟨k', v'⟩ := e
    obtain ⟨hh, ht⟩ := List.pairwise_cons.mp h
    unfold HotkeyMap.insert
    by_cases h1 : strLt k k' = true
    · simp only [h1, if_true]
      refine List.pairwise_cons.mpr ⟨?_, h⟩
      intro a ha
      rcases List.mem_cons.mp ha with ha | ha
      · rw [ha]
        exact h1
      · exact strLt_trans _ _ _ h1 (hh a ha)
    · by_cases h2 : k' = k
      · subst h2
        simp only [h1, if_true, if_false]
        exact List.pairwise_cons.mpr ⟨hh, ht⟩
      · simp only [h1, h2, if_false]
        refine List.pairwise_cons.mpr ⟨?_, ih ht⟩
        intro a ha
        rcases HotkeyMap.mem_insert _ _ _ _ ha with ha | ha
        · rw [ha]
          exact strLt_total _ _ h1 (Ne.symm h2)
        · exact hh a ha

theorem HotkeyMap.find_of_mem_ordered (m : HotkeyMap) (k : String) (v : Int) (h : m.Ordered)
    (hm : (k, v) ∈ m) : m.find k = some v := by
  induction m with
  | nil => simp at hm
  | cons e rest ih =>
    obtain ⟨k', v'⟩ := e
    obtain ⟨hh, ht⟩ := List.pairwise_cons.mp h
    rcases List.mem_cons.mp hm with h1 | h1
    · simp only [Prod.mk.injEq] at h1
      simp [HotkeyMap.find, h1.1, h1.2]
    · have hne : k' ≠ k := strLt_ne _ _ (hh _ h1)
      simp only [HotkeyMap.find, hne, if_false]
      exact ih ht h1

theorem run_ordered (ops : List Op) : (run ops).m_registeredHotkeys.Ordered := by
  induction ops using List.reverseRecOn with
  | nil => exact List.Pairwise.nil
  | append_singleton ops op ih =>
    rw [run_append]
    cases op with
    | register shortcutId key ctrl shift alt win osOk =>
      simp only [step]
      by_cases hv : keyToVk key = 0
      · rw [RegisterShortcut_of_unsupported _ _ _ _ _ _ _ _ hv]
        exact ih
      · rw [RegisterShortcut_map _ _ _ _ _ _ _ _ hv]
        cases osOk
        · exact HotkeyMap.erase_ordered _ _ ih
        · exact HotkeyMap.insert_ordered _ _ _ (HotkeyMap.erase_ordered _ _ ih)
    | unregister shortcutId =>
      simp only [step, UnregisterShortcut_map]
      exact HotkeyMap.erase_ordered _ _ ih
    | unregisterAll => exact List.Pairwise.nil

/-! ## Long runs of one call -/

theorem wrapInt32_add_wrapInt32 (a b : Int) : wrapInt32 (wrapInt32 a + b) = wrapInt32 (a + b) := by
  unfold wrapInt32
  omega

theorem wrapInt32_idem (a : Int) : wrapInt32 (wrapInt32 a) = wrapInt32 a := by
  unfold wrapInt32
  omega

theorem repeat_register (n : String) (key : List (Fin 256)) (ctrl shift alt win : Bool)
    (hv : keyToVk key ≠ 0) (m₀ : HotkeyMap) (hm₀ : m₀.erase n = m₀) (k : Nat) (s : State)
    (hs : s.m_registeredHotkeys.erase n = m₀) (hr : s.m_nextHotkeyId = wrapInt32 s.m_nextHotkeyId) :
    ((List.replicate (k + 1) (Op.register n key ctrl shift alt win true)).foldl step
        s).m_registeredHotkeys = m₀.insert n (wrapInt32 (s.m_nextHotkeyId + k)) ∧
    ((List.replicate (k + 1) (Op.register n key ctrl shift alt win true)).foldl step
        s).m_nextHotkeyId = wrapInt32 (s.m_nextHotkeyId + k + 1) ∧
    ((List.replicate (k + 1) (Op.register n key ctrl shift alt win true)).foldl step
        s).osHotkeys.lookup (wrapInt32 (s.m_nextHotkeyId + k)) =
      some (buildModifiers ctrl shift alt win, keyToVk key) := by
  induction k generalizing s with
  | zero =>
    have hm := RegisterShortcut_map n key ctrl shift alt win true s hv
    have hn := RegisterShortcut_next n key ctrl shift alt win true s hv
    have ho := RegisterShortcut_os n key ctrl shift alt win true s hv
    simp only [if_true] at hm ho
    simp only [List.replicate, List.foldl_cons, List.foldl_nil, step, Nat.cast_zero, add_zero,
      ← hr]
    refine ⟨by rw [hm, hs], hn, ?_⟩
    rw [ho]
    exact OsTable.lookup_bind_self _ _ _
  | succ k ih =>
    have hm := RegisterShortcut_map n key ctrl shift alt win true s hv
    have hn := RegisterShortcut_next n key ctrl shift alt win true s hv
    simp only [if_true] at hm
    have h := ih (RegisterShortcut n key ctrl shift alt win true s)
      (by rw [hm, HotkeyMap.erase_insert, hs, hm₀]) (by rw [hn, wrapInt32_idem])
    rw [hn, wrapInt32_add_wrapInt32] at h
    have e₁ : s.m_nextHotkeyId + 1 + (k : Int) = s.m_nextHotkeyId + ((k + 1 : Nat) : Int) := by
      push_cast
      omega
    have e₂ : wrapInt32 (wrapInt32 (s.m_nextHotkeyId + 1) + (k : Int) + 1) =
        wrapInt32 (s.m_nextHotkeyId + ((k + 1 : Nat) : Int) + 1) := by
      rw [add_assoc, wrapInt32_add_wrapInt32]
      congr 1
      push_cast
      omega
    rw [e₁, e₂] at h
    rw [List.replicate_succ, List.foldl_cons]
    exact h

theorem lastSuccessful_replicate_other (name other : String) (key : List (Fin 256))
    (ctrl shift alt win osOk : Bool) (hne : other ≠ name) (ops : List Op) (k : Nat) :
    lastSuccessful name (ops ++ List.replicate k (Op.register other key ctrl shift alt win osOk))
      = lastSuccessful name ops := by
  induction k with
  | zero => simp
  | succ k ih =>
    rw [List.replicate_succ', ← List.append_assoc, lastSuccessful_append]
    simp [hne, ih]

theorem run_cons (op : Op) (ops : List Op) :
    run (op :: ops) = ops.foldl step (step State.initial op) :=
  rfl

theorem run_eq_foldl (ops : List Op) : run ops = ops.foldl step State.initial :=
  rfl

theorem repeat_register_at (n : String) (key : List (Fin 256)) (ctrl shift alt win : Bool)
    (hv : keyToVk key ≠ 0) (m₀ : HotkeyMap) (hm₀ : m₀.erase n = m₀) (k : Nat) (s : State)
    (c id c' : Int) (hs : s.m_registeredHotkeys.erase n = m₀) (hc : s.m_nextHotkeyId = c)
    (hr : c = wrapInt32 c) (hid : wrapInt32 (c + k) = id) (hc' : wrapInt32 (c + k + 1) = c') :
    ((List.replicate (k + 1) (Op.register n key ctrl shift alt win true)).foldl step
        s).m_registeredHotkeys = m₀.insert n id ∧
    ((List.replicate (k + 1) (Op.register n key ctrl shift alt win true)).foldl step
        s).m_nextHotkeyId = c' ∧
    ((List.replicate (k + 1) (Op.register n key ctrl shift alt win true)).foldl step
        s).osHotkeys.lookup id = some (buildModifiers ctrl shift alt win, keyToVk key) := by
  subst hc hid hc'
  exact repeat_register n key ctrl shift alt win hv m₀ hm₀ k s hs hr

/-! ## Reachable states: the properties -/

/-- C3, as stated, fails: register `"a"` (Ctrl+A, hot-key id 1) and then `"b"` (Ctrl+B)
4294967296 times, every `RegisterHotKey` succeeding.  The 32-bit counter has come round, the
last call has taken hot-key id 1 again, and id 1, which the map still stores for `"a"`, is bound
to the descriptor of `"b"`, not to the one `"a"` was last registered with. -/
theorem registry_disagrees_after_wraparound_example :
    (run (Op.register "a" [65] true false false false true ::
        List.replicate 4294967296
          (Op.register "b" [66] true false false false true))).m_registeredHotkeys.find "a" =
      some 1 ∧
    lastSuccessful "a" (Op.register "a" [65] true false false false true ::
        List.replicate 4294967296 (Op.register "b" [66] true false false false true)) =
      some (0x4002, 0x41) ∧
    (run (Op.register "a" [65] true false false false true ::
        List.replicate 4294967296
          (Op.register "b" [66] true false false false true))).osHotkeys.lookup 1 =
      some (0x4002, 0x42) := by
  have h := repeat_register_at "b" [66] true false false false (by decide) [("a", 1)]
    (by decide) 4294967295
    (step State.initial (Op.register "a" [65] true false false false true))
    2 1 2 (by decide) (by decide) (by decide) (by decide) (by decide)
  have hl := lastSuccessful_replicate_other "a" "b" [66] true false false false true (by decide)
    [Op.register "a" [65] true false false false true] 4294967296
  refine ⟨?_, ?_, ?_⟩
  · rw [run_cons]
    exact (congrArg (fun m => HotkeyMap.find m "a") h.1).trans (by decide)
  · exact hl.trans (by decide)
  · rw [run_cons]
    exact h.2.2.trans (by decide)

/-- C3, amended: in every state reached from a fresh module by a sequence of `RegisterShortcut`,
`UnregisterShortcut` and `UnregisterAllShortcuts` calls of which at most 4294967296 (2^32) are
`RegisterShortcut` calls with a supported key, each `RegisterHotKey` free to succeed or fail, a
hot-key id is bound at the operating system exactly when the map stores it for some name, and
the id stored for a name is bound to the descriptor of the most recent successful
`RegisterShortcut` for that name. -/
theorem registry_agrees_with_os (ops : List Op) (hb : acceptedCalls ops ≤ 4294967296) :
    (∀ id, ((run ops).osHotkeys.lookup id).isSome ↔
      ∃ n, (run ops).m_registeredHotkeys.find n = some id) ∧
    (∀ n id, (run ops).m_registeredHotkeys.find n = some id →
      ∃ d, lastSuccessful n ops = some d ∧ (run ops).osHotkeys.lookup id = some d) := by
  obtain ⟨_, _, _, _, h3, h4⟩ := run_consistent ops hb
  refine ⟨h3, fun n id h => ?_⟩
  have hbd := (h3 id).mpr ⟨n, h⟩
  have hl := h4 n id h
  simp only at hl
  cases hd : (run ops).osHotkeys.lookup id with
  | none => rw [hd] at hbd; cases hbd
  | some d => exact ⟨d, by rw [← hl, hd], rfl⟩

theorem registry_agrees_with_os_witness :
    ∃ d, lastSuccessful "x" [.register "x" [65] true false false false true,
        .register "y" [66] false false false false false,
        .register "x" [66] false true false false true,
        .register "x" [35] false false true false true] = some d ∧
      (run [.register "x" [65] true false false false true,
        .register "y" [66] false false false false false,
        .register "x" [66] false true false false true,
        .register "x" [35] false false true false true]).osHotkeys.lookup 3 = some d :=
  (registry_agrees_with_os [.register "x" [65] true false false false true,
    .register "y" [66] false false false false false,
    .register "x" [66] false true false false true,
    .register "x" [35] false false true false true] (by decide)).2 "x" 3 (by decide)

/-- C4, as stated, fails, in both of its parts.  After `"a"` and then 4294967296 (2^32)
registrations of `"b"` the two names hold the same hot-key id 1.  After 2147483647 (2^31 - 1)
registrations of `"x"` the stored id is 2147483647 and the counter is -2147483648, so the stored
id is not below the counter. -/
theorem slot_ids_collide_after_wraparound_example :
    (run (Op.register "a" [65] true false false false true ::
        List.replicate 4294967296
          (Op.register "b" [66] true false false false true))).m_registeredHotkeys =
      [("a", 1), ("b", 1)] ∧
    (run (List.replicate 2147483647
        (Op.register "x" [65] true false false false true))).m_registeredHotkeys =
      [("x", 2147483647)] ∧
    (run (List.replicate 2147483647
        (Op.register "x" [65] true false false false true))).m_nextHotkeyId = -2147483648 := by
  have h := repeat_register_at "b" [66] true false false false (by decide) [("a", 1)]
    (by decide) 4294967295
    (step State.initial (Op.register "a" [65] true false false false true))
    2 1 2 (by decide) (by decide) (by decide) (by decide) (by decide)
  have g := repeat_register_at "x" [65] true false false false (by decide) [] (by decide)
    2147483646 State.initial 1 2147483647 (-2147483648) (by decide) (by decide) (by decide)
    (by decide) (by decide)
  refine ⟨?_, ?_, ?_⟩
  · rw [run_cons]
    exact h.1.trans (by decide)
  · rw [run_eq_foldl]
    exact g.1.trans (by decide)
  · rw [run_eq_foldl]
    exact g.2.1

/-- C4, amended: in every state reached from a fresh module (empty map, counter 1) by a
sequence of `RegisterShortcut`, `UnregisterShortcut` and `UnregisterAllShortcuts` calls, as long
as at most 4294967296 (2^32) `RegisterShortcut` calls had a supported key, no two distinct names
hold the same hot-key id, whether the map is read through `find` or entry by entry, because
every stored id is the 32-bit value of a different count between 1 and the number of ids handed
out; and as long as fewer than 2147483647 (2^31 - 1) `RegisterShortcut` calls had a supported
key, every stored hot-key id is at least 1 and below `m_nextHotkeyId`. -/
theorem slot_ids_unique (ops : List Op) :
    (acceptedCalls ops ≤ 4294967296 →
      (∀ n₁ n₂ id, (run ops).m_registeredHotkeys.find n₁ = some id →
        (run ops).m_registeredHotkeys.find n₂ = some id → n₁ = n₂) ∧
      (∀ n₁ n₂ id, (n₁, id) ∈ (run ops).m_registeredHotkeys →
        (n₂, id) ∈ (run ops).m_registeredHotkeys → n₁ = n₂) ∧
      (∀ n id, (n, id) ∈ (run ops).m_registeredHotkeys →
        ∃ j : Int, 1 ≤ j ∧ j ≤ acceptedCalls ops ∧ id = wrapInt32 j)) ∧
    (acceptedCalls ops < 2147483647 →
      ∀ n id, (n, id) ∈ (run ops).m_registeredHotkeys →
        1 ≤ id ∧ id < (run ops).m_nextHotkeyId) := by
  have ho := run_ordered ops
  constructor
  · intro hb
    obtain ⟨_, _, h1, h2, _, _⟩ := run_consistent ops hb
    refine ⟨h2, ?_, ?_⟩
    · intro n₁ n₂ id ha hb'
      exact h2 n₁ n₂ id (HotkeyMap.find_of_mem_ordered _ _ _ ho ha)
        (HotkeyMap.find_of_mem_ordered _ _ _ ho hb')
    · intro n id h
      obtain ⟨j, hj1, hj2, hj3⟩ := h1 n id (HotkeyMap.find_of_mem_ordered _ _ _ ho h)
      exact ⟨j, hj1, by omega, hj3⟩
  · intro hb n id h
    obtain ⟨_, hc, h1, _, _, _⟩ := run_consistent ops (by omega)
    obtain ⟨j, hj1, hj2, hj3⟩ := h1 n id (HotkeyMap.find_of_mem_ordered _ _ _ ho h)
    rw [hc, hj3, wrapInt32_of_range j (by omega) (by omega),
      wrapInt32_of_range _ (by omega) (by omega)]
    exact ⟨hj1, hj2⟩

theorem slot_ids_unique_witness :
    ("b" = "b") ∧
    (1 ≤ (2 : Int) ∧ (2 : Int) <
      (run [.register "b" [66] true false false false true, .unregister "b",
        .register "b" [66] true false false false true,
        .register "a" [65] true false false false true]).m_nextHotkeyId) :=
  ⟨((slot_ids_unique [.register "b" [66] true false false false true, .unregister "b",
      .register "b" [66] true false false false true,
      .register "a" [65] true false false false true]).1 (by decide)).2.1 "b" "b" 2
      (by decide) (by decide),
    (slot_ids_unique [.register "b" [66] true false false false true, .unregister "b",
      .register "b" [66] true false false false true,
      .register "a" [65] true false false false true]).2 (by decide) "b" 2 (by decide)⟩

end QuotesNative
